import Mathlib

/-!
# go-smallchat: the client registry, the broadcast engine and the dispatcher

A shallow embedding of `smallchat.go`.

* A Go `[]byte` / `string` is a list of byte values (`List Byte`).
* A `*Client` is a reference into a heap of `Client` records (`Ref`), so that the
  pointer comparison `client == sender` and the in-place update `client.nick = ...`
  keep their meaning.  A `nil` entry of `s.clients` is `none`.
* A `net.Conn` is a connection handle (`Conn`).  What the program does to a
  connection is recorded in a chronological trace of events; whether a `Write`
  returns an error is decided by the environment (`World.broken`).
* The `sync.RWMutex` is explicit state.  One operation is run sequentially, so an
  acquisition that cannot be granted can never be granted later either: it is the
  outcome `blocked` (the goroutine waits forever).
* `fmt.Println` / `fmt.Printf` only write to the operational log and are left out.
-/

namespace SmallChat

/-- One byte of a Go `[]byte` or `string`, by its numeric value. -/
abbrev Byte := Nat

/-- Handle of a `net.Conn`. -/
abbrev Conn := Nat

/-- A `*Client`: the index of the record in the heap. -/
abbrev Ref := Nat

/-- The bytes of an ASCII string literal of the source. -/
def ascii (s : String) : List Byte := s.data.map Char.toNat

/-- The struct `Client`. -/
structure Client where
  id : Int
  conn : Conn
  nick : List Byte
deriving DecidableEq

/-- State of the `sync.RWMutex`: whether it is held exclusively, and by how many readers. -/
structure RWMutex where
  writer : Bool
  readers : Nat
deriving DecidableEq

/-- What the program does to the outside, and its calls of `s.mutex.Lock()`. -/
inductive Event where
  /-- The call `conn.Write(data)`; `ok` tells whether it returned without error. -/
  | write (conn : Conn) (data : List Byte) (ok : Bool)
  /-- The call `conn.Close()`. -/
  | close (conn : Conn)
  /-- The call `s.mutex.Lock()`, granted or not. -/
  | lock
deriving DecidableEq

/-- The heap of clients, the two fields of the one `Server` (`clients`, `mutex`),
the environment (`broken`: the connections on which `Write` fails) and the trace. -/
structure World where
  heap : List Client
  clients : List (Option Ref)
  mutex : RWMutex
  broken : List Conn
  trace : List Event
deriving DecidableEq

/-- How a call ends: it returns, it waits forever for the mutex, or it panics. -/
inductive Outcome (α : Type) where
  | done (a : α) (w : World)
  | blocked (w : World)
  | panicked (w : World)
deriving DecidableEq

/-- The world in which a call ended. -/
def Outcome.world {α : Type} : Outcome α → World
  | .done _ w => w
  | .blocked w => w
  | .panicked w => w

/-- A computation on the world. -/
def M (α : Type) : Type := World → Outcome α

/-- Sequencing: a blocked or panicked call runs nothing further. -/
def M.bind {α β : Type} (m : M α) (f : α → M β) : M β := fun w =>
  match m w with
  | .done a w1 => f a w1
  | .blocked w1 => .blocked w1
  | .panicked w1 => .panicked w1

instance : Monad M where
  pure a := fun w => .done a w
  bind := M.bind

/-- A Go `defer`: the deferred call runs when the body returns and when it panics,
not when the body never returns. -/
def withDefer {α : Type} (deferred : M Unit) (body : M α) : M α := fun w =>
  match body w with
  | .done a w1 =>
    match deferred w1 with
    | .done _ w2 => .done a w2
    | .blocked w2 => .blocked w2
    | .panicked w2 => .panicked w2
  | .blocked w1 => .blocked w1
  | .panicked w1 =>
    match deferred w1 with
    | .done _ w2 => .panicked w2
    | .blocked w2 => .blocked w2
    | .panicked w2 => .panicked w2

/-- The call `s.mutex.Lock()`: granted only when nobody holds the mutex. -/
def lock : M Unit := fun w =>
  let w1 := { w with trace := w.trace ++ [Event.lock] }
  if w.mutex.writer = false ∧ w.mutex.readers = 0 then
    .done () { w1 with mutex := { writer := true, readers := 0 } }
  else .blocked w1

/-- The call `s.mutex.Unlock()`: a fatal error when the mutex is not held exclusively. -/
def unlock : M Unit := fun w =>
  if w.mutex.writer = true then
    .done () { w with mutex := { w.mutex with writer := false } }
  else .panicked w

/-- The call `s.mutex.RLock()`: granted unless the mutex is held exclusively. -/
def rlock : M Unit := fun w =>
  if w.mutex.writer = false then
    .done () { w with mutex := { w.mutex with readers := w.mutex.readers + 1 } }
  else .blocked w

/-- The call `s.mutex.RUnlock()`: a fatal error when no reader holds the mutex. -/
def runlock : M Unit := fun w =>
  if 0 < w.mutex.readers then
    .done () { w with mutex := { w.mutex with readers := w.mutex.readers - 1 } }
  else .panicked w

/-- Reading through a `*Client`; a reference outside the heap stands for a nil pointer. -/
def deref (client : Ref) : M Client := fun w =>
  match w.heap[client]? with
  | some c => .done c w
  | none => .panicked w

/-- The assignment `s.clients[id] = v`; an index out of range panics. -/
def setSlot (id : Int) (v : Option Ref) : M Unit := fun w =>
  if 0 ≤ id ∧ id < (w.clients.length : Int) then
    .done () { w with clients := w.clients.set id.toNat v }
  else .panicked w

/-- The call `conn.Write(data)`; the result is `true` when `err == nil`. -/
def connWrite (conn : Conn) (data : List Byte) : M Bool := fun w =>
  let ok := !(w.broken.contains conn)
  .done ok { w with trace := w.trace ++ [Event.write conn data ok] }

/-- The call `conn.Close()`. -/
def connClose (conn : Conn) : M Unit := fun w =>
  .done () { w with trace := w.trace ++ [Event.close conn] }

/-- `Server.AddClient`. -/
def AddClient (client : Ref) : M Unit := do
  lock
  withDefer unlock do
    let c ← deref client
    setSlot c.id (some client)

/-- `Server.FreeClient`. -/
def FreeClient (client : Ref) : M Unit := do
  lock
  withDefer unlock do
    let c ← deref client
    setSlot c.id none
    connClose c.conn

/-- The loop of `Server.FindAFreeID` over the slots from index `i` on. -/
def findFrom : List (Option Ref) → Nat → Int
  | [], _ => -1
  | none :: _, i => (i : Int)
  | some _ :: rest, i => findFrom rest (i + 1)

/-- `Server.FindAFreeID`. -/
def FindAFreeID : M Int := do
  rlock
  withDefer runlock (fun w => .done (findFrom w.clients 0) w)

/-- `Server.SendMessage`; the result is `true` when the returned `err` is nil. -/
def SendMessage (client : Ref) (message : List Byte) : M Bool := do
  let c ← deref client
  let ok ← connWrite c.conn message
  if ok then
    pure true
  else do
    FreeClient client
    pure false

/-- The loop of `Server.BroadcastMessage`: `k` iterations remain, the next one reads
slot `i` of the table as it is then. -/
def broadcastLoop (sender : Ref) (message : List Byte) : Nat → Nat → M Unit
  | 0, _ => pure ()
  | k + 1, i => fun w =>
    match w.clients[i]? with
    | some (some client) =>
      if client = sender then broadcastLoop sender message k (i + 1) w
      else
        match SendMessage client message w with
        | .done _ w1 => broadcastLoop sender message k (i + 1) w1
        | .blocked w1 => .blocked w1
        | .panicked w1 => .panicked w1
    | _ => broadcastLoop sender message k (i + 1) w

/-- `Server.BroadcastMessage`. -/
def BroadcastMessage (sender : Ref) (message : List Byte) : M Unit := do
  lock
  withDefer unlock (fun w => broadcastLoop sender message w.clients.length 0 w)

/-- `bytes.TrimRight(s, cutset)` for an ASCII cutset: the trailing bytes that are in
the cutset are removed. -/
def TrimRight (s cutset : List Byte) : List Byte :=
  (s.reverse.dropWhile (fun b => cutset.contains b)).reverse

/-- `strings.SplitN(s, sep, n)` for a one-byte separator and `n ≥ 0`: at most `n`
pieces, the last one being the unsplit remainder. -/
def SplitN (s : List Byte) (sep : Byte) : Nat → List (List Byte)
  | 0 => []
  | 1 => [s]
  | n + 2 =>
    match s.span (fun b => b != sep) with
    | (_, []) => [s]
    | (a, _ :: rest) => a :: SplitN rest sep (n + 1)

/-- The verb `%d` of `fmt.Sprintf`. -/
def fmtInt (n : Int) : List Byte := ascii (toString n)

/-- `fmt.Sprintf("%s> %s\n", nick, msg)`. -/
def chatLine (nick msg : List Byte) : List Byte := nick ++ ascii "> " ++ msg ++ ascii "\n"

/-- The notice sent for a command that is not understood. -/
def unsupportedMsg : List Byte := ascii "Unsupported command\n"

/-- The banner `welcomeMsg`. -/
def welcomeMsg : List Byte := ascii "Welcome to Simple Chat! Use /nick <nick> to set your nick.\n"

/-- The expression `&Client{...}`: a new record, at a reference not used before. -/
def alloc (c : Client) : M Ref := fun w =>
  .done w.heap.length { w with heap := w.heap ++ [c] }

/-- The assignment `client.nick = nick`. -/
def setNick (client : Ref) (nick : List Byte) : M Unit := fun w =>
  match w.heap[client]? with
  | some c => .done () { w with heap := w.heap.set client { c with nick := nick } }
  | none => .panicked w

/-- The body of the accept loop of `main` for an accepted connection `conn`; the
result is the client handed to the new `handleConnection` goroutine, if any. -/
def connect (conn : Conn) : M (Option Ref) := do
  let freeID ← FindAFreeID
  if freeID = -1 then do
    let _ ← connWrite conn (ascii "Server is full\n")
    connClose conn
    pure none
  else do
    let client ← alloc { id := freeID, conn := conn, nick := ascii "user:" ++ fmtInt freeID }
    AddClient client
    pure (some client)

/-- What `client.conn.Read(buffer)` returns: the bytes `buffer[:n]`, or an error
(`io.EOF` included). -/
inductive ReadResult where
  | data (buf : List Byte)
  | err
deriving DecidableEq

/-- How one iteration of the loop of `handleConnection` ends: with the next
iteration, or with the return of `handleConnection`. -/
inductive Ctl where
  | next
  | ret
deriving DecidableEq

/-- The statements of `handleConnection` after a successful read of `buf`. -/
def handleData (client : Ref) (buf : List Byte) : M Ctl := do
  let msg := TrimRight buf (ascii "\r\n")
  if 0 < msg.length ∧ msg.head? = some 47 then do
    let command := SplitN msg 32 2
    if command.head? = some (ascii "/nick") then do
      if 1 < command.length then do
        setNick client (command.getD 1 [])
      else do
        let _ ← SendMessage client unsupportedMsg
      pure Ctl.next
    else if command.head? = some (ascii "/quit") then do
      FreeClient client
      pure Ctl.ret
    else do
      let _ ← SendMessage client unsupportedMsg
      pure Ctl.next
  else do
    let c ← deref client
    BroadcastMessage client (chatLine c.nick msg)
    pure Ctl.next

/-- One iteration of the loop of `handleConnection`. -/
def handleRead (client : Ref) : ReadResult → M Ctl
  | .err => do
    FreeClient client
    pure Ctl.ret
  | .data buf => handleData client buf

/-- The read loop of `handleConnection` on the successive results of `Read`; the
result is `ret` once the function has returned, `next` while it waits for input. -/
def handleLoop (client : Ref) : List ReadResult → M Ctl
  | [] => pure Ctl.next
  | r :: rest => fun w =>
    match handleRead client r w with
    | .done Ctl.next w1 => handleLoop client rest w1
    | o => o

/-- `handleConnection` on the successive results of `Read`. -/
def handleConnection (client : Ref) (reads : List ReadResult) : M Ctl := do
  let ok ← SendMessage client welcomeMsg
  if ok then handleLoop client reads else pure Ctl.ret


/-! ## Vocabulary of the statements -/

/-- The mutex when nobody holds it. -/
def RWMutex.free : RWMutex := { writer := false, readers := 0 }

/-- The clients held in the occupied slots, in increasing slot order. -/
def occupants (w : World) : List Ref := w.clients.filterMap id

/-- The clients held in the occupied slots other than `sender`, in increasing slot order. -/
def recipients (w : World) (sender : Ref) : List Ref :=
  (occupants w).filter (fun r => r != sender)

/-- The connection of a client. -/
def connOf (w : World) (r : Ref) : Option Conn := w.heap[r]?.map Client.conn

/-- The connections of the clients held in the occupied slots other than `sender`,
in increasing slot order. -/
def recipientConns (w : World) (sender : Ref) : List Conn :=
  (recipients w sender).filterMap (connOf w)

/-- Every occupied slot holds a reference to a record of the heap (no dangling pointer). -/
def ValidRefs (w : World) : Prop := ∀ r ∈ occupants w, r < w.heap.length

instance (w : World) : Decidable (ValidRefs w) :=
  inferInstanceAs (Decidable (∀ r ∈ occupants w, r < w.heap.length))

/-- The clients of the occupied slots have pairwise distinct connections. -/
def DistinctConns (w : World) : Prop := ((occupants w).filterMap (connOf w)).Nodup

instance (w : World) : Decidable (DistinctConns w) :=
  inferInstanceAs (Decidable ((occupants w).filterMap (connOf w)).Nodup)

/-- Every write to a client of an occupied slot other than `sender` succeeds. -/
def WritesSucceed (w : World) (sender : Ref) : Prop :=
  ∀ k ∈ recipientConns w sender, k ∉ w.broken

instance (w : World) (sender : Ref) : Decidable (WritesSucceed w sender) :=
  inferInstanceAs (Decidable (∀ k ∈ recipientConns w sender, k ∉ w.broken))

/-- The clients other than `sender` among the given slots, in order. -/
def segRecipients (slots : List (Option Ref)) (sender : Ref) : List Ref :=
  (slots.filterMap id).filter (fun r => r != sender)

/-- The successful writes of `message` to the connections `ks`, in that order. -/
def deliveries (message : List Byte) (ks : List Conn) : List Event :=
  ks.map (fun k => Event.write k message true)

/-- A table of four slots with three clients; slot 1 is empty. -/
def demoWorld : World :=
  { heap := [{ id := 0, conn := 10, nick := ascii "user:0" },
             { id := 2, conn := 11, nick := ascii "user:2" },
             { id := 3, conn := 12, nick := ascii "user:3" }],
    clients := [some 0, none, some 1, some 2],
    mutex := RWMutex.free,
    broken := [],
    trace := [] }

/-- The table of `main` before any connection, for capacity `N`. -/
def emptyWorld (N : Nat) (broken : List Conn) : World :=
  { heap := [], clients := List.replicate N none, mutex := RWMutex.free,
    broken := broken, trace := [] }

/-- The states reached from the empty table of capacity `N` by connects, by
`FreeClient` on a client of an occupied slot, and by changes of the environment. -/
inductive Reachable (N : Nat) : World → Prop where
  | init (broken : List Conn) : Reachable N (emptyWorld N broken)
  | connect {w : World} (conn : Conn) (o : Option Ref) (w' : World) :
      Reachable N w → connect conn w = .done o w' → Reachable N w'
  | free {w : World} (r : Ref) (w' : World) :
      Reachable N w → r ∈ occupants w → FreeClient r w = .done () w' → Reachable N w'
  | env {w : World} (broken : List Conn) :
      Reachable N w → Reachable N { w with broken := broken }

/-- The table has `N` slots, nobody holds the mutex, and every occupied slot `i`
holds a client whose id is `i`. -/
def SlotInv (N : Nat) (w : World) : Prop :=
  w.clients.length = N ∧ w.mutex = RWMutex.free ∧
  ∀ (i : Nat) (r : Ref), w.clients[i]? = some (some r) →
    ∃ c, w.heap[r]? = some c ∧ c.id = (i : Int)

/-- The state after two connects and the removal of the first client, for capacity 2. -/
def reachedWorld : World :=
  { heap := [{ id := 0, conn := 10, nick := ascii "user:0" },
             { id := 1, conn := 11, nick := ascii "user:1" }],
    clients := [none, some 1],
    mutex := RWMutex.free,
    broken := [],
    trace := [Event.lock, Event.lock, Event.lock, Event.close 10] }

/-- The calls of `Write` in a trace, in order. -/
def writesIn (t : List Event) : List Event :=
  t.filter (fun e => match e with
    | Event.write _ _ _ => true
    | _ => false)

/-- The world in which the display name of `client` (whose record was `c`) is `name`. -/
def renamed (w : World) (client : Ref) (c : Client) (name : List Byte) : World :=
  { w with heap := w.heap.set client { c with nick := name } }

/-- Three registered clients `A` (slot 0), `B` (slot 1) and `C` (slot 2); writes to the
connection of `B` fail. -/
def fanoutWorld : World :=
  { heap := [{ id := 0, conn := 10, nick := ascii "user:0" },
             { id := 1, conn := 11, nick := ascii "user:1" },
             { id := 2, conn := 12, nick := ascii "user:2" }],
    clients := [some 0, some 1, some 2],
    mutex := RWMutex.free,
    broken := [11],
    trace := [] }

/-- Two registered clients; the mutex is held exclusively, as it is inside
`BroadcastMessage`, and writes to the connection of client 1 fail. -/
def heldWorld : World :=
  { heap := [{ id := 0, conn := 10, nick := ascii "user:0" },
             { id := 1, conn := 11, nick := ascii "user:1" }],
    clients := [some 0, some 1],
    mutex := { writer := true, readers := 0 },
    broken := [11],
    trace := [] }

/-- Capacity 1, after the connect of client `c` (reference 0, connection 10); writes to
the connection of `c` fail. -/
def reuseWorld1 : World :=
  { heap := [{ id := 0, conn := 10, nick := ascii "user:0" }],
    clients := [some 0],
    mutex := RWMutex.free,
    broken := [10],
    trace := [Event.lock] }

/-- Then `c` sent `/foo`: the notice could not be written and `c` was removed. -/
def reuseWorld2 : World :=
  { reuseWorld1 with
    clients := [none],
    trace := [Event.lock, Event.write 10 (ascii "Unsupported command\n") false,
              Event.lock, Event.close 10] }

/-- Then client `d` (reference 1, connection 11) connected and got the slot of `c`. -/
def reuseWorld3 : World :=
  { reuseWorld2 with
    heap := reuseWorld2.heap ++ [{ id := 0, conn := 11, nick := ascii "user:0" }],
    clients := [some 1],
    trace := reuseWorld2.trace ++ [Event.lock] }

/-- Then the read of `c` failed and `c` was removed a second time. -/
def reuseWorld4 : World :=
  { reuseWorld3 with
    clients := [none],
    trace := reuseWorld3.trace ++ [Event.lock, Event.close 10] }


/-! ## Evaluation lemmas -/

@[simp] theorem bind_apply {α β : Type} (m : M α) (f : α → M β) (w : World) :
    (m >>= f) w = match m w with
      | .done a w1 => f a w1
      | .blocked w1 => .blocked w1
      | .panicked w1 => .panicked w1 := rfl

@[simp] theorem pure_apply {α : Type} (a : α) (w : World) :
    (pure a : M α) w = .done a w := rfl

theorem FreeClient_free (w : World) (client : Ref) (c : Client)
    (hfree : w.mutex = RWMutex.free) (hc : w.heap[client]? = some c)
    (h0 : 0 ≤ c.id) (h1 : c.id < (w.clients.length : Int)) :
    FreeClient client w = .done ()
      { w with clients := w.clients.set c.id.toNat none,
               trace := w.trace ++ [Event.lock, Event.close c.conn] } := by
  obtain ⟨heap, clients, mutex, broken, trace⟩ := w
  simp only [RWMutex.free] at hfree
  subst hfree
  simp only at hc h1
  simp [FreeClient, lock, withDefer, deref, hc, setSlot, h0, h1, connClose, unlock]

theorem FreeClient_held (w : World) (client : Ref) (hheld : w.mutex.writer = true) :
    FreeClient client w = .blocked { w with trace := w.trace ++ [Event.lock] } := by
  simp [FreeClient, lock, hheld]

theorem SendMessage_ok (w : World) (client : Ref) (c : Client) (message : List Byte)
    (hc : w.heap[client]? = some c) (hok : c.conn ∉ w.broken) :
    SendMessage client message w = .done true
      { w with trace := w.trace ++ [Event.write c.conn message true] } := by
  simp [SendMessage, deref, hc, connWrite, hok]

theorem SendMessage_fail_held (w : World) (client : Ref) (c : Client) (message : List Byte)
    (hc : w.heap[client]? = some c) (hbad : c.conn ∈ w.broken) (hheld : w.mutex.writer = true) :
    SendMessage client message w = .blocked
      { w with trace := w.trace ++ [Event.write c.conn message false, Event.lock] } := by
  simp [SendMessage, deref, hc, connWrite, hbad, FreeClient_held, hheld]


theorem broadcastLoop_ok (sender : Ref) (message : List Byte) :
    ∀ (k i : Nat) (w : World),
      (∀ r ∈ segRecipients (w.clients.drop i) sender,
          ∃ c, w.heap[r]? = some c ∧ c.conn ∉ w.broken) →
      broadcastLoop sender message k i w = .done ()
        { w with trace := (w.trace ++ deliveries message
            ((segRecipients ((w.clients.drop i).take k) sender).filterMap (connOf w))) } := by
  intro k
  induction k with
  | zero => intro i w _; simp [broadcastLoop, segRecipients, deliveries]
  | succ k ih =>
    intro i w h
    unfold broadcastLoop
    rcases hi : w.clients[i]? with _ | (_ | r)
    · have hlen : w.clients.length ≤ i := by
        rcases Nat.lt_or_ge i w.clients.length with hl | hl
        · rw [List.getElem?_eq_getElem hl] at hi; cases hi
        · exact hl
      have hd : w.clients.drop i = [] := List.drop_eq_nil_of_le hlen
      have hd1 : w.clients.drop (i + 1) = [] := List.drop_eq_nil_of_le (by omega)
      simp only []
      rw [ih (i + 1) w (by simp [hd1, segRecipients])]
      simp [hd, hd1, segRecipients, deliveries]
    · have hlt : i < w.clients.length := by
        rcases Nat.lt_or_ge i w.clients.length with hl | hl
        · exact hl
        · rw [List.getElem?_eq_none hl] at hi; cases hi
      have hget : w.clients[i] = none := by
        rw [List.getElem?_eq_getElem hlt] at hi; exact Option.some.inj hi
      have hd : w.clients.drop i = none :: w.clients.drop (i + 1) := by
        rw [List.drop_eq_getElem_cons hlt, hget]
      simp only []
      rw [ih (i + 1) w (by
        intro r hr; apply h; rw [hd]; simpa [segRecipients] using hr)]
      simp [hd, segRecipients]
    · have hlt : i < w.clients.length := by
        rcases Nat.lt_or_ge i w.clients.length with hl | hl
        · exact hl
        · rw [List.getElem?_eq_none hl] at hi; cases hi
      have hget : w.clients[i] = some r := by
        rw [List.getElem?_eq_getElem hlt] at hi; exact Option.some.inj hi
      have hd : w.clients.drop i = some r :: w.clients.drop (i + 1) := by
        rw [List.drop_eq_getElem_cons hlt, hget]
      simp only []
      by_cases hrs : r = sender
      · rw [if_pos hrs]
        rw [ih (i + 1) w (by
          intro r' hr'; apply h; rw [hd]
          simp only [segRecipients, List.filterMap_cons, id, List.filter_cons]
          simp [hrs]; simpa [segRecipients] using hr')]
        simp [hd, segRecipients, hrs]
      · rw [if_neg hrs]
        obtain ⟨c, hc, hok⟩ := h r (by rw [hd]; simp [segRecipients, hrs])
        rw [SendMessage_ok w r c message hc hok]
        simp only []
        rw [ih (i + 1) _ (by
          intro r' hr'
          simp only at hr' ⊢
          apply h; rw [hd]
          simp only [segRecipients, List.filterMap_cons, id, List.filter_cons]
          simp [hrs]; right; simpa [segRecipients] using hr')]
        simp [hd, segRecipients, hrs, deliveries, connOf, hc]
        rfl

theorem deliverable_of_valid (w : World) (sender : Ref)
    (hvalid : ValidRefs w) (hok : WritesSucceed w sender) :
    ∀ r ∈ recipients w sender, ∃ c, w.heap[r]? = some c ∧ c.conn ∉ w.broken := by
  intro r hr
  have hocc : r ∈ occupants w := (List.mem_filter.mp hr).1
  have hlt : r < w.heap.length := hvalid r hocc
  refine ⟨w.heap[r], List.getElem?_eq_getElem hlt, ?_⟩
  apply hok
  unfold recipientConns
  rw [List.mem_filterMap]
  exact ⟨r, hr, by simp [connOf, List.getElem?_eq_getElem hlt]⟩

theorem BroadcastMessage_ok (w : World) (sender : Ref) (message : List Byte)
    (hfree : w.mutex = RWMutex.free)
    (h : ∀ r ∈ recipients w sender, ∃ c, w.heap[r]? = some c ∧ c.conn ∉ w.broken) :
    BroadcastMessage sender message w = .done ()
      { w with trace := w.trace ++ Event.lock :: deliveries message (recipientConns w sender) } := by
  obtain ⟨heap, clients, mutex, broken, trace⟩ := w
  simp only [RWMutex.free] at hfree
  subst hfree
  simp only [BroadcastMessage, bind_apply, lock, withDefer]
  simp only [and_self, if_true]
  rw [broadcastLoop_ok sender message clients.length 0 _ (by simpa [recipients, occupants, segRecipients] using h)]
  simp [unlock, recipientConns, recipients, occupants, segRecipients]
  rfl

theorem nodup_filterMap_inj {α β : Type} (f : α → Option β) :
    ∀ (l : List α), (l.filterMap f).Nodup →
      ∀ a ∈ l, ∀ b ∈ l, ∀ k, f a = some k → f b = some k → a = b := by
  intro l
  induction l with
  | nil => intro _ a ha; cases ha
  | cons x xs ih =>
    intro hnd a ha b hb k hfa hfb
    rcases hx : f x with _ | y
    · rw [List.filterMap_cons_none hx] at hnd
      have hax : a ≠ x := by intro e; rw [e, hx] at hfa; cases hfa
      have hbx : b ≠ x := by intro e; rw [e, hx] at hfb; cases hfb
      exact ih hnd a ((List.mem_cons.mp ha).resolve_left hax) b
        ((List.mem_cons.mp hb).resolve_left hbx) k hfa hfb
    · rw [List.filterMap_cons_some hx, List.nodup_cons] at hnd
      rcases List.mem_cons.mp ha with rfl | ha'
      · rcases List.mem_cons.mp hb with rfl | hb'
        · rfl
        · exfalso; apply hnd.1
          rw [hx] at hfa; cases hfa
          exact List.mem_filterMap.mpr ⟨b, hb', hfb⟩
      · rcases List.mem_cons.mp hb with rfl | hb'
        · exfalso; apply hnd.1
          rw [hx] at hfb; cases hfb
          exact List.mem_filterMap.mpr ⟨a, ha', hfa⟩
        · exact ih hnd.2 a ha' b hb' k hfa hfb

theorem recipientConns_nodup (w : World) (sender : Ref) (hdist : DistinctConns w) :
    (recipientConns w sender).Nodup := by
  unfold recipientConns recipients
  exact List.Nodup.sublist (List.Sublist.filterMap _ (List.filter_sublist _)) hdist

theorem sender_conn_not_recipient (w : World) (sender : Ref) (c : Client)
    (hdist : DistinctConns w) (hreg : sender ∈ occupants w) (hc : w.heap[sender]? = some c) :
    c.conn ∉ recipientConns w sender := by
  intro hmem
  unfold recipientConns at hmem
  obtain ⟨r, hr, hk⟩ := List.mem_filterMap.mp hmem
  have hr' := List.mem_filter.mp hr
  have : r = sender := nodup_filterMap_inj (connOf w) (occupants w) hdist r hr'.1 sender hreg
    c.conn hk (by simp [connOf, hc])
  simp [this] at hr'

theorem deliveries_count (message : List Byte) (ks : List Conn) (k : Conn)
    (hnd : ks.Nodup) (hk : k ∈ ks) :
    (deliveries message ks).count (Event.write k message true) = 1 := by
  unfold deliveries
  rw [List.count_map_of_injective ks (fun k => Event.write k message true)
    (by intro a b hab; simpa using hab)]
  exact List.count_eq_one_of_mem hnd hk


theorem findFrom_spec : ∀ (l : List (Option Ref)) (i : Nat),
    (findFrom l i = -1 ↔ ∀ o ∈ l, o ≠ none) ∧
    (findFrom l i ≠ -1 → ∃ j : Nat, findFrom l i = ((i + j : Nat) : Int) ∧
        l[j]? = some none ∧ ∀ j' < j, ∃ r, l[j']? = some (some r)) := by
  intro l
  induction l with
  | nil => intro i; simp [findFrom]
  | cons o rest ih =>
    intro i
    cases o with
    | none =>
      refine ⟨?_, ?_⟩
      · simp only [findFrom]
        constructor
        · intro h; omega
        · intro h; exact absurd rfl (h none (List.mem_cons_self _ _))
      · intro _
        exact ⟨0, by simp [findFrom], by simp, by intro j' hj'; omega⟩
    | some r =>
      obtain ⟨ih1, ih2⟩ := ih (i + 1)
      refine ⟨?_, ?_⟩
      · simp only [findFrom]
        rw [ih1]
        simp
      · intro hne
        simp only [findFrom] at hne ⊢
        obtain ⟨j, hj, hnone, hbelow⟩ := ih2 hne
        refine ⟨j + 1, ?_, by simpa using hnone, ?_⟩
        · rw [hj]; push_cast; ring
        · intro j' hj'
          cases j' with
          | zero => exact ⟨r, by simp⟩
          | succ j'' => simpa using hbelow j'' (by omega)

theorem FindAFreeID_eval (w : World) (hw : w.mutex.writer = false) :
    FindAFreeID w = .done (findFrom w.clients 0) w := by
  obtain ⟨heap, clients, ⟨writer, readers⟩, broken, trace⟩ := w
  simp only at hw
  subst hw
  simp [FindAFreeID, rlock, withDefer, runlock]


theorem connect_full (w : World) (conn : Conn) (hfree : w.mutex = RWMutex.free)
    (hfull : findFrom w.clients 0 = -1) :
    connect conn w = .done none
      { w with trace := w.trace ++
          [Event.write conn (ascii "Server is full\n") (!(w.broken.contains conn)),
           Event.close conn] } := by
  have hw : w.mutex.writer = false := by rw [hfree]; rfl
  simp [connect, FindAFreeID_eval w hw, hfull, connWrite, connClose]

theorem connect_free (w : World) (conn : Conn) (i : Nat) (hfree : w.mutex = RWMutex.free)
    (hi : findFrom w.clients 0 = (i : Int)) (hlt : i < w.clients.length) :
    connect conn w = .done (some w.heap.length)
      { w with heap := w.heap ++ [{ id := (i : Int), conn := conn,
                                    nick := ascii "user:" ++ fmtInt (i : Int) }],
               clients := w.clients.set i (some w.heap.length),
               trace := w.trace ++ [Event.lock] } := by
  have hw : w.mutex.writer = false := by rw [hfree]; rfl
  obtain ⟨heap, clients, mutex, broken, trace⟩ := w
  simp only [RWMutex.free] at hfree
  subst hfree
  simp only at hi hlt
  have hne : ¬ ((i : Int) = -1) := by omega
  simp [connect, FindAFreeID_eval _ hw, hi, hne, alloc, AddClient, lock, withDefer, deref,
    setSlot, hlt, unlock]


theorem lt_length_of_getElem?_eq_some {α : Type} {l : List α} {i : Nat} {a : α}
    (h : l[i]? = some a) : i < l.length := by
  rcases Nat.lt_or_ge i l.length with hl | hl
  · exact hl
  · rw [List.getElem?_eq_none hl] at h; cases h

theorem mem_occupants_iff (w : World) (r : Ref) :
    r ∈ occupants w ↔ ∃ i : Nat, w.clients[i]? = some (some r) := by
  unfold occupants
  rw [List.mem_filterMap]
  constructor
  · rintro ⟨o, ho, hid⟩
    simp only [id] at hid
    subst hid
    obtain ⟨i, hi⟩ := List.mem_iff_getElem?.mp ho
    exact ⟨i, hi⟩
  · rintro ⟨i, hi⟩
    exact ⟨some r, List.mem_iff_getElem?.mpr ⟨i, hi⟩, rfl⟩

theorem SlotInv_empty (N : Nat) (broken : List Conn) : SlotInv N (emptyWorld N broken) := by
  refine ⟨by simp [emptyWorld], rfl, ?_⟩
  intro i r h
  have hlt := lt_length_of_getElem?_eq_some h
  simp only [emptyWorld, List.length_replicate] at hlt
  simp [emptyWorld, List.getElem?_replicate, hlt] at h

theorem connect_preserves (N : Nat) (w : World) (conn : Conn) (hinv : SlotInv N w) :
    ∃ o w', connect conn w = .done o w' ∧ SlotInv N w' ∧
      (∀ (i : Nat) (r : Ref), w.clients[i]? = some (some r) → w'.clients[i]? = some (some r)) := by
  obtain ⟨hlen, hfree, hslots⟩ := hinv
  by_cases hfull : findFrom w.clients 0 = -1
  · refine ⟨_, _, connect_full w conn hfree hfull, ⟨hlen, hfree, hslots⟩, fun i r h => h⟩
  · obtain ⟨j, hj, hnone, _⟩ := (findFrom_spec w.clients 0).2 hfull
    have hjlt : j < w.clients.length := lt_length_of_getElem?_eq_some hnone
    rw [Nat.zero_add] at hj
    refine ⟨_, _, connect_free w conn j hfree hj hjlt, ⟨?_, hfree, ?_⟩, ?_⟩
    · simpa using hlen
    · intro i r h
      simp only [List.getElem?_set] at h
      by_cases hji : j = i
      · subst hji
        simp only [if_true, hjlt] at h
        have hr : r = w.heap.length := by
          have := Option.some.inj h
          exact (Option.some.inj this).symm
        subst hr
        exact ⟨{ id := (j : Int), conn := conn, nick := ascii "user:" ++ fmtInt (j : Int) },
          by simp, rfl⟩
      · rw [if_neg hji] at h
        obtain ⟨c, hc, hid⟩ := hslots i r h
        refine ⟨c, ?_, hid⟩
        have hrlt := lt_length_of_getElem?_eq_some hc
        simp only
        rw [List.getElem?_append_left hrlt]
        exact hc
    · intro i r h
      simp only [List.getElem?_set]
      by_cases hji : j = i
      · subst hji; rw [hnone] at h; cases h
      · rw [if_neg hji]; exact h


theorem free_preserves (N : Nat) (w : World) (r : Ref) (hinv : SlotInv N w)
    (hr : r ∈ occupants w) :
    ∃ w', FreeClient r w = .done () w' ∧ SlotInv N w' := by
  obtain ⟨hlen, hfree, hslots⟩ := hinv
  obtain ⟨i, hi⟩ := (mem_occupants_iff w r).mp hr
  obtain ⟨c, hc, hid⟩ := hslots i r hi
  have hilt := lt_length_of_getElem?_eq_some hi
  refine ⟨_, FreeClient_free w r c hfree hc (by omega) (by omega), ⟨by simpa using hlen, hfree, ?_⟩⟩
  intro k r' h
  simp only [List.getElem?_set] at h
  by_cases hik : c.id.toNat = k
  · rw [if_pos hik] at h
    split at h <;> cases h
  · rw [if_neg hik] at h
    exact hslots k r' h

theorem SlotInv_of_reachable (N : Nat) (w : World) (h : Reachable N w) : SlotInv N w := by
  induction h with
  | init broken => exact SlotInv_empty N broken
  | connect conn o w' _ hstep ih =>
    obtain ⟨o2, w2, h2, hinv, _⟩ := connect_preserves N _ conn ih
    rw [h2] at hstep
    injection hstep with _ hw
    exact hw ▸ hinv
  | free r w' _ hr hstep ih =>
    obtain ⟨w2, h2, hinv⟩ := free_preserves N _ r ih hr
    rw [h2] at hstep
    injection hstep with _ hw
    exact hw ▸ hinv
  | env broken _ ih => exact ih

theorem occupants_length_le (w : World) : (occupants w).length ≤ w.clients.length :=
  List.length_filterMap_le _ _

theorem SplitN_two (s : List Byte) (sep : Byte) :
    SplitN s sep 2 =
      if sep ∈ s then [s.takeWhile (fun b => b != sep), (s.dropWhile (fun b => b != sep)).tail]
      else [s] := by
  have hunf : SplitN s sep 2 =
      match s.span (fun b => b != sep) with
      | (_, []) => [s]
      | (a, _ :: rest) => a :: SplitN rest sep 1 := by
    rw [SplitN]
  rw [hunf, List.span_eq_take_drop]
  rcases hd : s.dropWhile (fun b => b != sep) with _ | ⟨b, rest⟩
  · have hall : ∀ x ∈ s, (fun b => b != sep) x = true := by
      simpa [List.dropWhile_eq_nil_iff] using hd
    have hnot : sep ∉ s := by
      intro hm
      have := hall sep hm
      simp at this
    simp [hnot]
  · have hmem : sep ∈ s := by
      have hb : b ∈ s.dropWhile (fun b => b != sep) := by rw [hd]; exact List.mem_cons_self _ _
      have hbs : b ∈ s := (List.dropWhile_sublist _).subset hb
      have hhead := List.head_dropWhile_not (fun b => b != sep) s
        (by rw [hd]; exact List.cons_ne_nil _ _)
      simp only [hd, List.head_cons] at hhead
      have : b = sep := by simpa using hhead
      exact this ▸ hbs
    simp [hmem, SplitN]


theorem ascii_nick : ascii "/nick" = [47, 110, 105, 99, 107] := by decide

theorem ascii_quit : ascii "/quit" = [47, 113, 117, 105, 116] := by decide

theorem SplitN_nick (name : List Byte) :
    SplitN (ascii "/nick" ++ 32 :: name) 32 2 = [ascii "/nick", name] := by
  rw [SplitN_two, ascii_nick]
  simp [List.takeWhile, List.dropWhile]

theorem handleData_nick (w : World) (client : Ref) (c : Client) (buf name : List Byte)
    (hc : w.heap[client]? = some c)
    (hmsg : TrimRight buf (ascii "\r\n") = ascii "/nick" ++ 32 :: name) :
    handleData client buf w = .done Ctl.next
      { w with heap := w.heap.set client { c with nick := name } } := by
  unfold handleData
  simp only [hmsg, SplitN_nick]
  simp [ascii_nick, setNick, hc]

theorem handleData_quit (w : World) (client : Ref) (buf : List Byte)
    (hmsg : TrimRight buf (ascii "\r\n") = ascii "/quit") :
    handleData client buf w = (FreeClient client >>= fun _ => pure Ctl.ret) w := by
  unfold handleData
  have hsplit : SplitN (ascii "/quit") 32 2 = [ascii "/quit"] := by decide
  simp only [hmsg, hsplit]
  simp [ascii_nick, ascii_quit]

theorem handleData_chat (w : World) (client : Ref) (c : Client) (buf : List Byte)
    (hc : w.heap[client]? = some c)
    (hmsg : (TrimRight buf (ascii "\r\n")).head? ≠ some 47) :
    handleData client buf w =
      (BroadcastMessage client (chatLine c.nick (TrimRight buf (ascii "\r\n"))) >>=
        fun _ => pure Ctl.next) w := by
  unfold handleData
  simp [hmsg, deref, hc]


theorem writesIn_append (t u : List Event) : writesIn (t ++ u) = writesIn t ++ writesIn u := by
  simp [writesIn]

theorem FreeClient_writes (w : World) (client : Ref) :
    writesIn (FreeClient client w).world.trace = writesIn w.trace := by
  obtain ⟨heap, clients, ⟨writer, readers⟩, broken, trace⟩ := w
  by_cases h1 : writer = false ∧ readers = 0
  · obtain ⟨hwr, hrd⟩ := h1
    subst hwr hrd
    rcases hh : heap[client]? with _ | c
    · simp [FreeClient, lock, withDefer, deref, unlock, Outcome.world, writesIn, hh]
    · by_cases h2 : 0 ≤ c.id ∧ c.id < (clients.length : Int)
      · simp [FreeClient, lock, withDefer, deref, setSlot, connClose, unlock, Outcome.world,
          writesIn, hh, h2]
      · simp [FreeClient, lock, withDefer, deref, setSlot, connClose, unlock, Outcome.world,
          writesIn, hh, h2]
  · simp [FreeClient, lock, Outcome.world, writesIn, h1]

theorem SendMessage_fail (w : World) (client : Ref) (c : Client) (message : List Byte)
    (hc : w.heap[client]? = some c) (hbad : c.conn ∈ w.broken) :
    SendMessage client message w =
      (FreeClient client >>= fun _ => pure false)
        { w with trace := w.trace ++ [Event.write c.conn message false] } := by
  simp [SendMessage, deref, hc, connWrite, hbad]

theorem SendMessage_writes (w : World) (client : Ref) (c : Client) (message : List Byte)
    (hc : w.heap[client]? = some c) :
    writesIn (SendMessage client message w).world.trace =
      writesIn w.trace ++ [Event.write c.conn message (!(w.broken.contains c.conn))] := by
  by_cases hok : c.conn ∈ w.broken
  · have h := FreeClient_writes
      { w with trace := w.trace ++ [Event.write c.conn message false] } client
    rw [SendMessage_fail w client c message hc hok, bind_apply]
    rcases hf : FreeClient client
      { w with trace := w.trace ++ [Event.write c.conn message false] } with ⟨a, w1⟩ | w1 | w1
    all_goals
      rw [hf] at h
      simp only [Outcome.world, pure_apply] at h ⊢
      rw [h, writesIn_append]
      simp [writesIn, hok]
  · rw [SendMessage_ok w client c message hc hok]
    simp [Outcome.world, writesIn, hok]

theorem handleData_unsupported (w : World) (client : Ref) (buf : List Byte)
    (hslash : (TrimRight buf (ascii "\r\n")).head? = some 47)
    (hquit : (TrimRight buf (ascii "\r\n")).takeWhile (fun b => b != 32) ≠ ascii "/quit")
    (hnick : (TrimRight buf (ascii "\r\n")).takeWhile (fun b => b != 32) = ascii "/nick" →
      32 ∉ TrimRight buf (ascii "\r\n")) :
    handleData client buf w =
      (SendMessage client unsupportedMsg >>= fun _ => pure Ctl.next) w := by
  unfold handleData
  generalize TrimRight buf (ascii "\r\n") = msg at hslash hquit hnick
  have hlen : 0 < msg.length := by
    cases msg with
    | nil => simp at hslash
    | cons b s => simp
  simp only [hlen, hslash, and_self, if_true, SplitN_two]
  by_cases hsp : 32 ∈ msg
  · have hn : ¬ (msg.takeWhile (fun b => b != 32) = ascii "/nick") := fun e => hnick e hsp
    simp [hsp, hn, hquit]
  · have htw : msg.takeWhile (fun b => b != 32) = msg := by
      rw [List.takeWhile_eq_self_iff]
      intro x hx
      have : x ≠ 32 := fun e => hsp (e ▸ hx)
      simpa using this
    rw [htw] at hquit
    simp only [hsp, if_false, List.head?_cons, Option.some.injEq, List.length_singleton,
      lt_self_iff_false, hquit]
    by_cases hn : msg = ascii "/nick"
    · simp [hn]
    · simp [hn]


theorem bind_pure_world {α β : Type} (m : M α) (b : β) (w : World) :
    ((m >>= fun _ => (pure b : M β)) w).world = (m w).world := by
  rw [bind_apply]
  rcases m w with ⟨a, w1⟩ | w1 | w1 <;> rfl

theorem connOf_renamed (w : World) (client : Ref) (c : Client) (name : List Byte)
    (hc : w.heap[client]? = some c) :
    connOf (renamed w client c name) = connOf w := by
  funext r
  simp only [connOf, renamed, List.getElem?_set]
  by_cases h : client = r
  · subst h
    have hlt := lt_length_of_getElem?_eq_some hc
    simp [hlt, hc]
  · simp [h]

theorem recipientConns_renamed (w : World) (client : Ref) (c : Client) (name : List Byte)
    (hc : w.heap[client]? = some c) (sender : Ref) :
    recipientConns (renamed w client c name) sender = recipientConns w sender := by
  unfold recipientConns
  rw [connOf_renamed w client c name hc]
  rfl

theorem deliverable_renamed (w : World) (client : Ref) (c : Client) (name : List Byte)
    (h : ∀ r ∈ recipients w client, ∃ d, w.heap[r]? = some d ∧ d.conn ∉ w.broken) :
    ∀ r ∈ recipients (renamed w client c name) client,
      ∃ d, (renamed w client c name).heap[r]? = some d ∧
        d.conn ∉ (renamed w client c name).broken := by
  intro r hr
  have hr' : r ∈ recipients w client := hr
  obtain ⟨d, hd, hok⟩ := h r hr'
  have hne : client ≠ r := by
    intro e
    have := (List.mem_filter.mp hr').2
    simp [e] at this
  refine ⟨d, ?_, hok⟩
  simp only [renamed, List.getElem?_set, if_neg hne]
  exact hd

theorem chatLine_empty (nick : List Byte) : chatLine nick [] = nick ++ ascii "> \n" := by
  have h : ascii "> " ++ ascii "\n" = ascii "> \n" := by decide
  simp [chatLine, ← h]


theorem reachedWorld_reachable : Reachable 2 reachedWorld :=
  Reachable.free 0 reachedWorld
    (Reachable.connect 11 (some 1) (connect 11 (connect 10 (emptyWorld 2 [])).world).world
      (Reachable.connect 10 (some 0) (connect 10 (emptyWorld 2 [])).world
        (Reachable.init []) (by decide))
      (by decide))
    (by decide) (by decide)


theorem broadcastLoop_blocked (sender : Ref) (message : List Byte) :
    ∀ (k i : Nat) (w : World), w.mutex.writer = true → ValidRefs w →
      (∃ (j : Nat) (r : Ref) (c : Client), i ≤ j ∧ j < i + k ∧
          w.clients[j]? = some (some r) ∧ r ≠ sender ∧
          w.heap[r]? = some c ∧ c.conn ∈ w.broken) →
      ∃ w', broadcastLoop sender message k i w = .blocked w' ∧
        w'.clients = w.clients ∧ w'.heap = w.heap ∧ w'.mutex = w.mutex := by
  intro k
  induction k with
  | zero =>
    intro i w _ _ h
    obtain ⟨j, _, _, h1, h2, _⟩ := h
    omega
  | succ k ih =>
    intro i w hheld hvalid h
    obtain ⟨j, r, c, hij, hjk, hj, hne, hc, hbad⟩ := h
    unfold broadcastLoop
    rcases hi : w.clients[i]? with _ | (_ | r')
    · have hji : j ≠ i := by intro e; rw [e, hi] at hj; cases hj
      simp only []
      exact ih (i + 1) w hheld hvalid ⟨j, r, c, by omega, by omega, hj, hne, hc, hbad⟩
    · have hji : j ≠ i := by intro e; rw [e, hi] at hj; cases hj
      simp only []
      exact ih (i + 1) w hheld hvalid ⟨j, r, c, by omega, by omega, hj, hne, hc, hbad⟩
    · simp only []
      by_cases hrs : r' = sender
      · have hji : j ≠ i := by
          intro e; rw [e, hi] at hj
          exact hne ((Option.some.inj (Option.some.inj hj)).symm.trans hrs)
        rw [if_pos hrs]
        exact ih (i + 1) w hheld hvalid ⟨j, r, c, by omega, by omega, hj, hne, hc, hbad⟩
      · rw [if_neg hrs]
        have hr'lt : r' < w.heap.length := hvalid r' ((mem_occupants_iff w r').mpr ⟨i, hi⟩)
        have hc' : w.heap[r']? = some w.heap[r'] := List.getElem?_eq_getElem hr'lt
        by_cases hbad' : (w.heap[r']).conn ∈ w.broken
        · rw [SendMessage_fail_held w r' _ message hc' hbad' hheld]
          exact ⟨_, rfl, rfl, rfl, rfl⟩
        · have hji : j ≠ i := by
            intro e; rw [e, hi] at hj
            have hrr : r' = r := Option.some.inj (Option.some.inj hj)
            subst hrr
            rw [hc'] at hc
            exact hbad' ((Option.some.inj hc) ▸ hbad)
          rw [SendMessage_ok w r' _ message hc' hbad']
          simp only []
          obtain ⟨w', hw', h1, h2, h3⟩ := ih (i + 1)
            { w with trace := w.trace ++ [Event.write (w.heap[r']).conn message true] }
            hheld hvalid ⟨j, r, c, by omega, by omega, hj, hne, hc, hbad⟩
          exact ⟨w', hw', h1, h2, h3⟩

/-- On any table with valid references and the mutex free, a broadcast in which the
write to some recipient fails never returns; the table is as before (no slot has been
emptied) and the mutex stays held. -/
theorem BroadcastMessage_blocks_on_failed_write (w : World) (sender B : Ref) (b : Client)
    (message : List Byte) (hfree : w.mutex = RWMutex.free) (hvalid : ValidRefs w)
    (hB : B ∈ occupants w) (hne : B ≠ sender) (hb : w.heap[B]? = some b)
    (hbad : b.conn ∈ w.broken) :
    ∃ w', BroadcastMessage sender message w = .blocked w' ∧
      w'.clients = w.clients ∧ w'.heap = w.heap ∧ w'.mutex.writer = true := by
  obtain ⟨j, hj⟩ := (mem_occupants_iff w B).mp hB
  have hjlt := lt_length_of_getElem?_eq_some hj
  obtain ⟨heap, clients, mutex, broken, trace⟩ := w
  simp only [RWMutex.free] at hfree
  subst hfree
  obtain ⟨w', hw', h1, h2, h3⟩ := broadcastLoop_blocked sender message clients.length 0
    { heap := heap, clients := clients, mutex := { writer := true, readers := 0 },
      broken := broken, trace := trace ++ [Event.lock] }
    rfl hvalid ⟨j, B, b, Nat.zero_le _, by simpa using hjlt, hj, hne, hb, hbad⟩
  refine ⟨w', ?_, h1, h2, by rw [h3]⟩
  simp only [BroadcastMessage, bind_apply, lock, withDefer]
  simp only [and_self, if_true]
  rw [hw']


/-! ## The claims -/

/-- C1: when the mutex is free and every write succeeds, `BroadcastMessage A payload`
returns, having written `payload` once to the connection of every client of an occupied
slot other than `A`, in increasing slot order, and nothing to the connection of `A`;
the table, the heap and the mutex are as before. -/
theorem broadcast_reaches_all_but_sender (w : World) (A : Ref) (payload : List Byte)
    (hfree : w.mutex = RWMutex.free) (hvalid : ValidRefs w) (hdist : DistinctConns w)
    (hreg : A ∈ occupants w) (hok : WritesSucceed w A) :
    BroadcastMessage A payload w = .done ()
        { w with trace := w.trace ++ Event.lock :: deliveries payload (recipientConns w A) } ∧
    (∀ r ∈ occupants w, r ≠ A → ∀ c, w.heap[r]? = some c →
        (deliveries payload (recipientConns w A)).count (Event.write c.conn payload true) = 1) ∧
    (∀ c, w.heap[A]? = some c → ∀ data ok,
        Event.write c.conn data ok ∉ deliveries payload (recipientConns w A)) := by
  refine ⟨BroadcastMessage_ok w A payload hfree (deliverable_of_valid w A hvalid hok), ?_, ?_⟩
  · intro r hr hne c hc
    apply deliveries_count payload _ _ (recipientConns_nodup w A hdist)
    unfold recipientConns
    exact List.mem_filterMap.mpr ⟨r, List.mem_filter.mpr ⟨hr, by simpa using hne⟩,
      by simp [connOf, hc]⟩
  · intro c hc data ok hmem
    unfold deliveries at hmem
    obtain ⟨k, hk, hkeq⟩ := List.mem_map.mp hmem
    have hkc : k = c.conn := by injection hkeq
    exact sender_conn_not_recipient w A c hdist hreg hc (hkc ▸ hk)

/-- Witness of C1: client 1 (slot 2) broadcasts in `demoWorld`. -/
theorem broadcast_reaches_all_but_sender_witness :
    demoWorld.mutex = RWMutex.free ∧ ValidRefs demoWorld ∧ DistinctConns demoWorld ∧
    1 ∈ occupants demoWorld ∧ WritesSucceed demoWorld 1 ∧
    BroadcastMessage 1 (ascii "hi") demoWorld = .done ()
      { demoWorld with trace := [Event.lock, Event.write 10 (ascii "hi") true,
                                 Event.write 12 (ascii "hi") true] } :=
  ⟨rfl, by decide, by decide, by decide, by decide,
   (broadcast_reaches_all_but_sender demoWorld 1 (ascii "hi") rfl (by decide) (by decide)
      (by decide) (by decide)).1⟩

/-- C4: when the mutex is not held exclusively, `FindAFreeID` returns and leaves the
world as it was; the result is `-1` exactly when every slot is occupied, and otherwise
it is the least index of an empty slot: it is within the table, the slot is empty and
every slot below it is occupied. -/
theorem FindAFreeID_least_empty (w : World) (hw : w.mutex.writer = false) :
    ∃ r : Int, FindAFreeID w = .done r w ∧
      (r = -1 ↔ ∀ o ∈ w.clients, o ≠ none) ∧
      (r ≠ -1 → ∃ i : Nat, r = (i : Int) ∧ i < w.clients.length ∧
          w.clients[i]? = some none ∧ ∀ j < i, ∃ c, w.clients[j]? = some (some c)) := by
  refine ⟨findFrom w.clients 0, FindAFreeID_eval w hw, (findFrom_spec w.clients 0).1, ?_⟩
  intro hne
  obtain ⟨j, hj, hnone, hbelow⟩ := (findFrom_spec w.clients 0).2 hne
  refine ⟨j, by simpa using hj, ?_, hnone, hbelow⟩
  rcases Nat.lt_or_ge j w.clients.length with hl | hl
  · exact hl
  · rw [List.getElem?_eq_none hl] at hnone; cases hnone

/-- Witness of C4: in `demoWorld` the first free id is 1. -/
theorem FindAFreeID_least_empty_witness :
    demoWorld.mutex.writer = false ∧ FindAFreeID demoWorld = .done 1 demoWorld ∧
    ∃ r : Int, FindAFreeID demoWorld = .done r demoWorld ∧
      (r = -1 ↔ ∀ o ∈ demoWorld.clients, o ≠ none) ∧
      (r ≠ -1 → ∃ i : Nat, r = (i : Int) ∧ i < demoWorld.clients.length ∧
          demoWorld.clients[i]? = some none ∧
          ∀ j < i, ∃ c, demoWorld.clients[j]? = some (some c)) :=
  ⟨rfl, by decide, FindAFreeID_least_empty demoWorld rfl⟩

/-- C5: in every state reached from the empty table of capacity `N` by connects and by
`FreeClient` on registered clients, at most `N` slots are occupied, every occupied slot
`i` holds a client whose id is `i`, two different occupied slots hold different clients
with different ids, every connect returns without changing an occupied slot, and
`FreeClient` on a registered client returns. -/
theorem registry_invariant (N : Nat) (w : World) (h : Reachable N w) :
    (occupants w).length ≤ N ∧
    (∀ (i : Nat) (r : Ref), w.clients[i]? = some (some r) →
        ∃ c, w.heap[r]? = some c ∧ c.id = (i : Int)) ∧
    (∀ (i j : Nat) (r1 r2 : Ref), w.clients[i]? = some (some r1) →
        w.clients[j]? = some (some r2) → i ≠ j →
        r1 ≠ r2 ∧ ∀ c1 c2, w.heap[r1]? = some c1 → w.heap[r2]? = some c2 → c1.id ≠ c2.id) ∧
    (∀ conn : Conn, ∃ o w', connect conn w = .done o w' ∧
        ∀ (i : Nat) (r : Ref), w.clients[i]? = some (some r) →
          w'.clients[i]? = some (some r)) ∧
    (∀ r ∈ occupants w, ∃ w', FreeClient r w = .done () w') := by
  have hinv := SlotInv_of_reachable N w h
  obtain ⟨hlen, hfree, hslots⟩ := hinv
  refine ⟨hlen ▸ occupants_length_le w, hslots, ?_, ?_, ?_⟩
  · intro i j r1 r2 h1 h2 hij
    obtain ⟨c1, hc1, hid1⟩ := hslots i r1 h1
    obtain ⟨c2, hc2, hid2⟩ := hslots j r2 h2
    have hids : c1.id ≠ c2.id := by rw [hid1, hid2]; omega
    refine ⟨?_, ?_⟩
    · intro e
      rw [e, hc2] at hc1
      exact hids (congrArg Client.id (Option.some.inj hc1).symm)
    · intro d1 d2 hd1 hd2
      rw [hc1] at hd1; rw [hc2] at hd2
      rw [← Option.some.inj hd1, ← Option.some.inj hd2]
      exact hids
  · intro conn
    obtain ⟨o, w', hstep, _, hkeep⟩ := connect_preserves N w conn ⟨hlen, hfree, hslots⟩
    exact ⟨o, w', hstep, hkeep⟩
  · intro r hr
    obtain ⟨w', hstep, _⟩ := free_preserves N w r ⟨hlen, hfree, hslots⟩ hr
    exact ⟨w', hstep⟩

/-- Witness of C5: two connects and the removal of the first client, from the empty
table of capacity 2. -/
theorem registry_invariant_witness :
    Reachable 2 reachedWorld ∧ (occupants reachedWorld).length ≤ 2 ∧
    reachedWorld.clients = [none, some 1] :=
  ⟨reachedWorld_reachable, (registry_invariant 2 reachedWorld reachedWorld_reachable).1,
   by decide⟩

/-- C7: after the line `/nick <name>` the display name of the client is `name`, the
remainder of the stripped line after the first space, whatever bytes it holds; a
following line whose stripped content `text` does not start with `/` is handed to
`BroadcastMessage` as `name ++ "> " ++ text ++ "\n"`, and when the mutex is free and the
writes succeed that payload is written once to every other registered client, in slot
order, and nothing is written to the sender. -/
theorem nick_then_chat (w : World) (client : Ref) (c : Client) (name buf1 buf2 : List Byte)
    (hc : w.heap[client]? = some c)
    (h1 : TrimRight buf1 (ascii "\r\n") = ascii "/nick" ++ 32 :: name)
    (h2 : (TrimRight buf2 (ascii "\r\n")).head? ≠ some 47) :
    32 ∉ ascii "/nick" ∧
    handleData client buf1 w = .done Ctl.next (renamed w client c name) ∧
    handleData client buf2 (renamed w client c name) =
      (BroadcastMessage client
          (name ++ ascii "> " ++ TrimRight buf2 (ascii "\r\n") ++ ascii "\n") >>=
        fun _ => pure Ctl.next) (renamed w client c name) ∧
    (w.mutex = RWMutex.free → ValidRefs w → DistinctConns w → client ∈ occupants w →
      WritesSucceed w client →
      handleData client buf2 (renamed w client c name) = .done Ctl.next
        { renamed w client c name with
          trace := (w.trace ++ Event.lock :: deliveries
            (name ++ ascii "> " ++ TrimRight buf2 (ascii "\r\n") ++ ascii "\n")
            (recipientConns w client)) } ∧
      ∀ data ok, Event.write c.conn data ok ∉ deliveries
        (name ++ ascii "> " ++ TrimRight buf2 (ascii "\r\n") ++ ascii "\n")
        (recipientConns w client)) := by
  have hc' : (renamed w client c name).heap[client]? = some { c with nick := name } := by
    have hlt := lt_length_of_getElem?_eq_some hc
    simp [renamed, hlt]
  have hchat := handleData_chat (renamed w client c name) client _ buf2 hc' h2
  refine ⟨by decide, handleData_nick w client c buf1 name hc h1, hchat, ?_⟩
  intro hfree hvalid hdist hreg hok
  refine ⟨?_, ?_⟩
  · rw [hchat, bind_apply,
      BroadcastMessage_ok (renamed w client c name) client _ hfree
        (deliverable_renamed w client c name (deliverable_of_valid w client hvalid hok)),
      recipientConns_renamed w client c name hc]
    rfl
  · intro data ok hmem
    unfold deliveries at hmem
    obtain ⟨k, hk, hkeq⟩ := List.mem_map.mp hmem
    have hkc : k = c.conn := by injection hkeq
    exact sender_conn_not_recipient w client c hdist hreg hc (hkc ▸ hk)

/-- Witness of C7: client 0 of `demoWorld` takes the name `bob x` and says `hi`. -/
theorem nick_then_chat_witness :
    demoWorld.heap[0]? = some { id := 0, conn := 10, nick := ascii "user:0" } ∧
    TrimRight (ascii "/nick bob x\r\n") (ascii "\r\n") = ascii "/nick" ++ 32 :: ascii "bob x" ∧
    (TrimRight (ascii "hi\n") (ascii "\r\n")).head? ≠ some 47 ∧
    handleData 0 (ascii "hi\n")
        (renamed demoWorld 0 { id := 0, conn := 10, nick := ascii "user:0" } (ascii "bob x")) =
      .done Ctl.next
        { renamed demoWorld 0 { id := 0, conn := 10, nick := ascii "user:0" } (ascii "bob x") with
          trace := [Event.lock, Event.write 11 (ascii "bob x> hi\n") true,
                    Event.write 12 (ascii "bob x> hi\n") true] } :=
  ⟨by decide, by decide, by decide,
   ((nick_then_chat demoWorld 0 { id := 0, conn := 10, nick := ascii "user:0" } (ascii "bob x")
      (ascii "/nick bob x\r\n") (ascii "hi\n") (by decide) (by decide) (by decide)).2.2.2
      rfl (by decide) (by decide) (by decide) (by decide)).1⟩

/-- C8: for a stripped line that starts with `/` and whose command word (the bytes
before the first space) is not `/quit` and is not `/nick` followed by an argument, the
dispatcher calls `Write` exactly once, with `Unsupported command\n` on the connection of
the issuing client; when that write succeeds the iteration ends with the next read and
the world is as before but for that write. -/
theorem unsupported_command_notice (w : World) (client : Ref) (c : Client) (buf : List Byte)
    (hc : w.heap[client]? = some c)
    (hslash : (TrimRight buf (ascii "\r\n")).head? = some 47)
    (hquit : (TrimRight buf (ascii "\r\n")).takeWhile (fun b => b != 32) ≠ ascii "/quit")
    (hnick : (TrimRight buf (ascii "\r\n")).takeWhile (fun b => b != 32) = ascii "/nick" →
      32 ∉ TrimRight buf (ascii "\r\n")) :
    writesIn (handleData client buf w).world.trace =
      writesIn w.trace ++
        [Event.write c.conn (ascii "Unsupported command\n") (!(w.broken.contains c.conn))] ∧
    (c.conn ∉ w.broken →
      handleData client buf w = .done Ctl.next
        { w with trace := w.trace ++
            [Event.write c.conn (ascii "Unsupported command\n") true] }) := by
  have hd := handleData_unsupported w client buf hslash hquit hnick
  refine ⟨?_, ?_⟩
  · rw [hd, bind_pure_world]
    exact SendMessage_writes w client c unsupportedMsg hc
  · intro hok
    rw [hd, bind_apply, SendMessage_ok w client c unsupportedMsg hc hok]
    rfl

/-- Witness of C8: client 0 of `demoWorld` sends `/foo bar`. -/
theorem unsupported_command_notice_witness :
    demoWorld.heap[0]? = some { id := 0, conn := 10, nick := ascii "user:0" } ∧
    (TrimRight (ascii "/foo bar\r\n") (ascii "\r\n")).head? = some 47 ∧
    handleData 0 (ascii "/foo bar\r\n") demoWorld = .done Ctl.next
      { demoWorld with trace := [Event.write 10 (ascii "Unsupported command\n") true] } :=
  ⟨by decide, by decide,
   (unsupported_command_notice demoWorld 0 { id := 0, conn := 10, nick := ascii "user:0" }
      (ascii "/foo bar\r\n") (by decide) (by decide) (by decide) (by decide)).2 (by decide)⟩

/-- C9, as stated, fails: in `demoWorld` the line `\r\n` received from client 0 makes the
server write `user:0> \n` to the two other clients. -/
theorem empty_line_counterexample :
    TrimRight (ascii "\r\n") (ascii "\r\n") = [] ∧
    handleData 0 (ascii "\r\n") demoWorld = .done Ctl.next
      { demoWorld with trace := [Event.lock, Event.write 11 (ascii "user:0> \n") true,
                                 Event.write 12 (ascii "user:0> \n") true] } := by
  decide

/-- C9, amended: a line that is empty after stripping is a chat message with empty
text: it is handed to `BroadcastMessage` as `nick ++ "> \n"`; when the mutex is free and
the writes succeed, that payload is written once to every other registered client and
nothing to the sender, and the table, the heap (display names included) and the mutex are
as before. -/
theorem empty_line_is_broadcast (w : World) (client : Ref) (c : Client) (buf : List Byte)
    (hc : w.heap[client]? = some c) (hempty : TrimRight buf (ascii "\r\n") = []) :
    handleData client buf w =
      (BroadcastMessage client (c.nick ++ ascii "> \n") >>= fun _ => pure Ctl.next) w ∧
    (w.mutex = RWMutex.free → ValidRefs w → DistinctConns w → client ∈ occupants w →
      WritesSucceed w client →
      handleData client buf w = .done Ctl.next
        { w with trace := (w.trace ++ Event.lock ::
            deliveries (c.nick ++ ascii "> \n") (recipientConns w client)) } ∧
      ∀ data ok, Event.write c.conn data ok ∉
        deliveries (c.nick ++ ascii "> \n") (recipientConns w client)) := by
  have hchat := handleData_chat w client c buf hc (by rw [hempty]; simp)
  rw [hempty, chatLine_empty] at hchat
  refine ⟨hchat, ?_⟩
  intro hfree hvalid hdist hreg hok
  refine ⟨?_, ?_⟩
  · rw [hchat, bind_apply,
      BroadcastMessage_ok w client _ hfree (deliverable_of_valid w client hvalid hok)]
    rfl
  · intro data ok hmem
    unfold deliveries at hmem
    obtain ⟨k, hk, hkeq⟩ := List.mem_map.mp hmem
    have hkc : k = c.conn := by injection hkeq
    exact sender_conn_not_recipient w client c hdist hreg hc (hkc ▸ hk)

/-- Witness of C9 amended: client 1 of `demoWorld` sends `\n`. -/
theorem empty_line_is_broadcast_witness :
    demoWorld.heap[1]? = some { id := 2, conn := 11, nick := ascii "user:2" } ∧
    TrimRight (ascii "\n") (ascii "\r\n") = [] ∧
    handleData 1 (ascii "\n") demoWorld =
      (BroadcastMessage 1 (ascii "user:2" ++ ascii "> \n") >>= fun _ => pure Ctl.next)
        demoWorld :=
  ⟨by decide, by decide,
   (empty_line_is_broadcast demoWorld 1 { id := 2, conn := 11, nick := ascii "user:2" }
      (ascii "\n") (by decide) (by decide)).1⟩

/-- C6, as stated, fails: in `reachedWorld` (slot 0 empty, slot 1 held by client 1, whose
id is 1) client 1 sends `/quit`; the next connect gets id 0, not 1. -/
theorem quit_slot_counterexample :
    Reachable 2 reachedWorld ∧ 1 ∈ occupants reachedWorld ∧
    reachedWorld.heap[1]? = some { id := 1, conn := 11, nick := ascii "user:1" } ∧
    handleData 1 (ascii "/quit\n") reachedWorld = .done Ctl.ret
      { reachedWorld with clients := [none, none],
                          trace := reachedWorld.trace ++ [Event.lock, Event.close 11] } ∧
    connect 12
      { reachedWorld with clients := [none, none],
                          trace := reachedWorld.trace ++ [Event.lock, Event.close 11] } =
      .done (some 2)
        { reachedWorld with
          heap := reachedWorld.heap ++ [{ id := 0, conn := 12, nick := ascii "user:0" }],
          clients := [some 2, none],
          trace := reachedWorld.trace ++ [Event.lock, Event.close 11, Event.lock] } :=
  ⟨reachedWorld_reachable, by decide, by decide, by decide, by decide⟩

/-- C6, amended: on a well-formed table, the line `/quit` from a registered client `c`
closes the connection of `c`, empties slot `c.id` and ends the loop of `c`; the next
connect registers its client in the least empty slot, whose index is at most `c.id` and
is `c.id` exactly when every slot below `c.id` is occupied. -/
theorem quit_frees_slot (N : Nat) (w : World) (client : Ref) (c : Client) (buf : List Byte)
    (conn : Conn) (hinv : SlotInv N w) (hreg : client ∈ occupants w)
    (hc : w.heap[client]? = some c) (hbuf : TrimRight buf (ascii "\r\n") = ascii "/quit") :
    ∃ (w1 : World) (d : Ref) (w2 : World) (cd : Client),
      handleData client buf w = .done Ctl.ret w1 ∧
      w1 = { w with clients := w.clients.set c.id.toNat none,
                    trace := w.trace ++ [Event.lock, Event.close c.conn] } ∧
      w.clients[c.id.toNat]? = some (some client) ∧
      w1.clients[c.id.toNat]? = some none ∧
      connect conn w1 = .done (some d) w2 ∧
      w2.heap[d]? = some cd ∧ cd.conn = conn ∧
      w2.clients[cd.id.toNat]? = some (some d) ∧
      0 ≤ cd.id ∧ cd.id ≤ c.id ∧
      w1.clients[cd.id.toNat]? = some none ∧
      (∀ j < cd.id.toNat, ∃ r, w1.clients[j]? = some (some r)) ∧
      (cd.id = c.id ↔ ∀ j < c.id.toNat, ∃ r, w.clients[j]? = some (some r)) := by
  obtain ⟨hlen, hfree, hslots⟩ := hinv
  obtain ⟨i, hi⟩ := (mem_occupants_iff w client).mp hreg
  obtain ⟨c', hc', hid⟩ := hslots i client hi
  have hcc : c' = c := Option.some.inj (hc'.symm.trans hc)
  subst hcc
  have hilt := lt_length_of_getElem?_eq_some hi
  have hnat : c'.id.toNat = i := by omega
  have hfreeC := FreeClient_free w client c' hfree hc (by omega) (by omega)
  rw [hnat] at hfreeC
  have hstep1 : handleData client buf w = .done Ctl.ret
      { w with clients := w.clients.set i none,
               trace := w.trace ++ [Event.lock, Event.close c'.conn] } := by
    rw [handleData_quit w client buf hbuf, bind_apply, hfreeC]
    rfl
  have hslot1 : (w.clients.set i none)[i]? = some none := by
    simp [hilt]
  have hnotfull : ¬ findFrom (w.clients.set i none) 0 = -1 := by
    intro hfull
    have hall := (findFrom_spec (w.clients.set i none) 0).1.mp hfull
    exact hall none (List.mem_iff_getElem?.mpr ⟨i, hslot1⟩) rfl
  obtain ⟨j, hj, hjnone, hjbelow⟩ := (findFrom_spec (w.clients.set i none) 0).2 hnotfull
  rw [Nat.zero_add] at hj
  have hjlt := lt_length_of_getElem?_eq_some hjnone
  have hji : j ≤ i := by
    by_contra hcon
    obtain ⟨r, hr⟩ := hjbelow i (by omega)
    rw [hslot1] at hr
    cases hr
  have hconn := connect_free
    { w with clients := w.clients.set i none,
             trace := w.trace ++ [Event.lock, Event.close c'.conn] }
    conn j hfree hj hjlt
  refine ⟨_, _, _, { id := (j : Int), conn := conn, nick := ascii "user:" ++ fmtInt (j : Int) },
    hstep1, by rw [hnat], by rw [hnat]; exact hi, by rw [hnat]; exact hslot1, hconn,
    by simp, rfl, ?_, by simp, by simp only; omega, by simpa using hjnone,
    by simpa using hjbelow, ?_⟩
  · simp only [Int.toNat_ofNat]
    simp only [List.length_set] at hjlt
    simp [hjlt]
  · simp only [hnat]
    constructor
    · intro hjeq k hk
      have hjeq' : j = i := by omega
      subst hjeq'
      obtain ⟨r, hr⟩ := hjbelow k hk
      refine ⟨r, ?_⟩
      rw [List.getElem?_set] at hr
      rw [if_neg (by omega)] at hr
      exact hr
    · intro hall
      have hjeq : j = i := by
        by_contra hne
        obtain ⟨r, hr⟩ := hall j (by omega)
        rw [List.getElem?_set, if_neg (by omega), hr] at hjnone
        cases hjnone
      omega

/-- Witness of C6 amended: client 1 of `reachedWorld` quits; the next connect gets a slot. -/
theorem quit_frees_slot_witness :
    SlotInv 2 reachedWorld ∧ 1 ∈ occupants reachedWorld ∧
    reachedWorld.heap[1]? = some { id := 1, conn := 11, nick := ascii "user:1" } ∧
    TrimRight (ascii "/quit\r\n") (ascii "\r\n") = ascii "/quit" ∧
    ∃ (w1 : World) (d : Ref) (w2 : World) (cd : Client),
      handleData 1 (ascii "/quit\r\n") reachedWorld = .done Ctl.ret w1 ∧
      connect 12 w1 = .done (some d) w2 ∧ w2.heap[d]? = some cd ∧ cd.id ≤ 1 :=
  have h := quit_frees_slot 2 reachedWorld 1 { id := 1, conn := 11, nick := ascii "user:1" }
    (ascii "/quit\r\n") 12 (SlotInv_of_reachable 2 reachedWorld reachedWorld_reachable)
    (by decide) (by decide) (by decide)
  ⟨SlotInv_of_reachable 2 reachedWorld reachedWorld_reachable, by decide, by decide, by decide,
   match h with
   | ⟨w1, d, w2, cd, h1, _, _, _, h5, h6, _, _, _, h10, _⟩ => ⟨w1, d, w2, cd, h1, h5, h6, h10⟩⟩

/-- C2 on the code: with `A`, `B`, `C` in slots 0, 1, 2 and the write to `B` failing,
`BroadcastMessage A` never returns: `SendMessage` calls `FreeClient`, whose `Lock` waits
for the mutex that `BroadcastMessage` holds.  The slot of `B` is still occupied and
nothing is written to `C`.  With `C` before `B` (sender 2, recipients 0 and 1) the
payload reaches the client of slot 0 and the call blocks all the same. -/
theorem broadcast_failed_write_blocks :
    BroadcastMessage 0 (ascii "hi") fanoutWorld = .blocked
      { fanoutWorld with
        mutex := { writer := true, readers := 0 },
        trace := [Event.lock, Event.write 11 (ascii "hi") false, Event.lock] } ∧
    BroadcastMessage 2 (ascii "hi") fanoutWorld = .blocked
      { fanoutWorld with
        mutex := { writer := true, readers := 0 },
        trace := [Event.lock, Event.write 10 (ascii "hi") true,
                  Event.write 11 (ascii "hi") false, Event.lock] } := by
  decide

/-- C3 on the code: `SendMessage` to a client whose write fails calls `Lock` (through
`FreeClient`); when the mutex is already held exclusively, as inside `BroadcastMessage`,
that call is never granted. -/
theorem SendMessage_locks_on_failure :
    SendMessage 1 (ascii "hi") heldWorld = .blocked
      { heldWorld with trace := [Event.write 11 (ascii "hi") false, Event.lock] } ∧
    SendMessage 1 (ascii "hi") { heldWorld with mutex := RWMutex.free } = .done false
      { heldWorld with
        mutex := RWMutex.free,
        clients := [some 0, none],
        trace := [Event.write 11 (ascii "hi") false, Event.lock, Event.close 11] } ∧
    (BroadcastMessage 0 (ascii "hi") { heldWorld with mutex := RWMutex.free }).world.trace =
      [Event.lock, Event.write 11 (ascii "hi") false, Event.lock] ∧
    BroadcastMessage 0 (ascii "hi") { heldWorld with mutex := RWMutex.free } =
      .blocked (BroadcastMessage 0 (ascii "hi") { heldWorld with mutex := RWMutex.free }).world := by
  decide

/-- C10 on the code: `c` sends `/foo`, the notice cannot be written and `c` is removed;
`d` connects and gets slot 0; the read of `c` fails and `FreeClient(c)` runs again: it
empties slot 0, which held `d`, and calls `Close` on the connection of `c` a second
time, while the connection of `d` stays open. -/
theorem double_free_evicts_new_client :
    connect 10 (emptyWorld 1 [10]) = .done (some 0) reuseWorld1 ∧
    handleRead 0 (.data (ascii "/foo\n")) reuseWorld1 = .done Ctl.next reuseWorld2 ∧
    connect 11 reuseWorld2 = .done (some 1) reuseWorld3 ∧
    reuseWorld3.clients = [some 1] ∧
    handleRead 0 .err reuseWorld3 = .done Ctl.ret reuseWorld4 ∧
    FreeClient 0 reuseWorld3 = .done () reuseWorld4 ∧
    reuseWorld4.clients = [none] ∧
    reuseWorld4.trace.count (Event.close 10) = 2 ∧
    Event.close 11 ∉ reuseWorld4.trace := by
  decide

end SmallChat
